import Mathlib

/-!
Verification of the AgroGo cloud-platform CRUD gateway.

This file shallowly embeds the generic dynamic-table CRUD gateway of the
repository (schema registry lookup, condition builder, entry gateway
insert/select/update, request adapters) and settles the frozen claims about
it.  JS scalar values are modelled by `Val`, rows and entries by association
lists from column name to `Val`, and the backing store of a table by a list
of rows.  Each definition mirrors one function of the source; the doc
comment of a definition names the source function it embeds.
-/

namespace AgroGo

/-- A JS scalar value as stored in a row or supplied in an entry:
a string, a number, or null. -/
inductive Val where
  | str : String → Val
  | num : Int → Val
  | null : Val
deriving DecidableEq, Repr

/-- JS truthiness of a scalar: the empty string, 0 and null are falsy.
Used to mirror the `if(!pkValue)` check of the edit handlers. -/
def Val.truthy : Val → Bool
  | .str s => !(s = "")
  | .num n => !(n = 0)
  | .null => false

/-- An entry: the field values supplied for one row, as an ordered mapping
from column name to scalar (`InferInsertModel` values in the source). -/
abbrev Entry := List (String × Val)

/-- A stored row, with the same representation as an entry. -/
abbrev Row := List (String × Val)

/-- JS truthiness of an optional field access `entry[k]`: absent (undefined)
or a falsy value. -/
def jsTruthyOpt : Option Val → Bool
  | none => false
  | some v => v.truthy

/-- The rows of `table` whose primary-key column holds `v`: the result of
`db.select().from(table).where(eq(pkColumn, pkValue)).all()`. -/
def matchingRows (rows : List Row) (pk : String) (v : Val) : List Row :=
  rows.filter (fun r => decide (r.lookup pk = some v))

/-- Overwrite column `k` of a row with `v` (one assignment of SQL
`UPDATE ... SET`). -/
def setCol (row : Row) (k : String) (v : Val) : Row :=
  if row.any (fun p => p.1 = k) then
    row.map (fun p => if p.1 = k then (k, v) else p)
  else
    row ++ [(k, v)]

/-- Apply every field of an entry to a row: `UPDATE ... SET <entry>` on one
row, as produced by `db.update(table).set(entry)`. -/
def applyEntry (row : Row) (entry : Entry) : Row :=
  entry.foldl (fun r p => setCol r p.1 p.2) row

/-- Run `db.update(table).set(entry).where(eq(pkColumn, v)).run()` on the
store: every row whose primary-key column holds `v` is overwritten per the
entry, all other rows are untouched. -/
def runUpdate (rows : List Row) (pk : String) (v : Val) (entry : Entry) : List Row :=
  rows.map (fun r => if r.lookup pk = some v then applyEntry r entry else r)

/-- Outcome of the single-entry edit handler: a 4xx rejection carrying the
reason string, or success carrying the JSON `data` payload. -/
inductive EditOneResult where
  | reject (status : Nat) (reason : String)
  | ok (data : Entry)
deriving DecidableEq, Repr

/-- Embeds `handleEditTableEntry` (src/backend/src/schema.ts, second
chunk): read the primary-key value from the entry; a missing or falsy value
is rejected as "missing primary key"; otherwise the matching rows are
fetched and exactly one match is required ("no match" on zero,
">1 match, ambiguous" on more than one); only then is the update run, and
the response data is the supplied entry.  Returns the response together
with the resulting store. -/
def handleEditTableEntry (rows : List Row) (entry : Entry) (pk : String) :
    EditOneResult × List Row :=
  match entry.lookup pk with
  | none => (.reject 400 "missing primary key", rows)
  | some v =>
    if v.truthy = false then (.reject 400 "missing primary key", rows)
    else
      let found := matchingRows rows pk v
      if found.length = 0 then (.reject 400 "no match", rows)
      else if found.length > 1 then (.reject 400 ">1 match, ambiguous", rows)
      else (.ok entry, runUpdate rows pk v entry)

/-- The tally returned by the batch edit handler: how many entries were
updated and, for each failed entry, the entry with its reason string. -/
structure EditTally where
  validCount : Nat
  invalidEntries : List (Entry × String)
deriving DecidableEq, Repr

/-- One iteration of the entry loop of `handleEditTableEntries`
(src/backend/src/handlers/editEntryHandlers.ts): a missing or falsy
primary-key value pushes ("missing primary key"), zero matches pushes
("no match"), several matches pushes ("ambiguous match"), and exactly one
match runs the update and increments the tally. -/
def editStep (pk : String) (st : List Row × EditTally) (entry : Entry) :
    List Row × EditTally :=
  let rows := st.1
  let t := st.2
  match entry.lookup pk with
  | none => (rows, ⟨t.validCount, t.invalidEntries ++ [(entry, "missing primary key")]⟩)
  | some v =>
    if v.truthy = false then
      (rows, ⟨t.validCount, t.invalidEntries ++ [(entry, "missing primary key")]⟩)
    else
      let found := matchingRows rows pk v
      if found.length = 0 then
        (rows, ⟨t.validCount, t.invalidEntries ++ [(entry, "no match")]⟩)
      else if found.length > 1 then
        (rows, ⟨t.validCount, t.invalidEntries ++ [(entry, "ambiguous match")]⟩)
      else
        (runUpdate rows pk v entry, ⟨t.validCount + 1, t.invalidEntries⟩)

/-- Embeds `handleEditTableEntries`
(src/backend/src/handlers/editEntryHandlers.ts): the entries are processed
in order by `editStep`, starting from an empty tally, and the final store
and tally are returned as the `{validCount, invalidEntries}` response. -/
def handleEditTableEntries (rows : List Row) (entries : List Entry) (pk : String) :
    List Row × EditTally :=
  entries.foldl (editStep pk) (rows, ⟨0, []⟩)




/-- The default-value generator a column of schema.ts may declare: a random
identifier (`$defaultFn(() => crypto.randomUUID())`), the constant
timestamp (`default(sql CURRENT_TIMESTAMP)`), or a static value (such as
the "unpaired" status of the rasPi table). -/
inductive DefaultKind where
  | randomUUID
  | currentTimestamp
  | staticVal (v : Val)
deriving DecidableEq, Repr

/-- A column of a table descriptor: its name, whether it is NOT NULL, and
its optional default generator (the data model of schema.ts). -/
structure ColumnDesc where
  name : String
  notNull : Bool
  defaultGen : Option DefaultKind
deriving DecidableEq, Repr

/-- The values the backing store generates during one insert: the random
identifier and the current timestamp. -/
structure GenEnv where
  uuid : Val
  now : Val

/-- The value a default generator produces under a generation environment. -/
def genVal (env : GenEnv) : DefaultKind → Val
  | .randomUUID => env.uuid
  | .currentTimestamp => env.now
  | .staticVal v => v

/-- Materialize one column of an inserted row, as the backing store does for
`db.insert(table).values(entry)`: a supplied value is used (rejected when an
explicit null hits a NOT NULL column), an omitted column takes its declared
default, an omitted column with no default becomes null unless it is
NOT NULL, in which case the insert fails. -/
def materializeColumn (env : GenEnv) (entry : Entry) (c : ColumnDesc) :
    Option (String × Val) :=
  match entry.lookup c.name with
  | some v => if c.notNull && v = Val.null then none else some (c.name, v)
  | none =>
    match c.defaultGen with
    | some d => some (c.name, genVal env d)
    | none => if c.notNull then none else some (c.name, Val.null)

/-- Materialize a full inserted row column by column; `none` is the
store-level InsertFailed (constraint violation). -/
def materialize (env : GenEnv) (entry : Entry) : List ColumnDesc → Option Row
  | [] => some []
  | c :: cs =>
    match materializeColumn env entry c, materialize env entry cs with
    | some p, some r => some (p :: r)
    | _, _ => none

/-- Embeds `insertTableEntry` (src/backend/src/utilities/databaseQueries.ts):
`db.insert(table).values(entry).returning()` stores the materialized row and
returns it; the function returns the first (only) returned row.  The result
is that row (or none on InsertFailed) paired with the resulting store. -/
def insertTableEntry (desc : List ColumnDesc) (env : GenEnv) (rows : List Row)
    (entry : Entry) : Option Row × List Row :=
  match materialize env entry desc with
  | none => (none, rows)
  | some row => (some row, rows ++ [row])

/-- The user table of schema.ts: id (primary key, random-identifier
default), created_at (constant-timestamp default, NOT NULL), location,
email (NOT NULL), first_name, last_name, raspi_mac. -/
def userColumns : List ColumnDesc :=
  [⟨"id", true, some .randomUUID⟩,
   ⟨"createdAt", true, some .currentTimestamp⟩,
   ⟨"location", false, none⟩,
   ⟨"email", true, none⟩,
   ⟨"firstName", false, none⟩,
   ⟨"lastName", false, none⟩,
   ⟨"raspiMac", false, none⟩]

/-- The WHERE clause built by `returnTableEntries`: no clause at all, one
equality clause used directly, or several clauses combined with `and`. -/
inductive WhereClause where
  | all
  | single (p : String × Val)
  | conj (ps : List (String × Val))
deriving DecidableEq, Repr

/-- The clause construction of `returnTableEntries`
(src/backend/src/utilities/databaseQueries.ts): an empty condition builds no
WHERE clause, a single pair is used directly, and two or more pairs are
spread into `and(...)`. -/
def buildWhere (cond : List (String × Val)) : WhereClause :=
  match cond with
  | [] => .all
  | [p] => .single p
  | ps => .conj ps

/-- Whether a row satisfies a WHERE clause: equality on each named column. -/
def evalWhere (w : WhereClause) (row : Row) : Bool :=
  match w with
  | .all => true
  | .single p => decide (row.lookup p.1 = some p.2)
  | .conj ps => ps.all (fun p => decide (row.lookup p.1 = some p.2))

/-- The SQLite ordering on scalar values: null before numbers before text. -/
def valLeB : Val → Val → Bool
  | .null, _ => true
  | .num _, .null => false
  | .num a, .num b => decide (a ≤ b)
  | .num _, .str _ => true
  | .str _, .null => false
  | .str _, .num _ => false
  | .str a, .str b => decide (a ≤ b)

/-- Insert an element into a list sorted by `le` (one step of the ORDER BY
model). -/
def insertLe {α : Type} (le : α → α → Bool) (x : α) : List α → List α
  | [] => [x]
  | y :: ys => if le x y then x :: y :: ys else y :: insertLe le x ys

/-- Insertion sort by `le`, modelling the ORDER BY of the backing store. -/
def sortByLe {α : Type} (le : α → α → Bool) (l : List α) : List α :=
  l.foldr (insertLe le) []

/-- Order rows by the received_at column, most recent first (the
`orderBy(desc(schema.tempAndHumidity.receivedAt))` special case). -/
def rowDescReceivedAt (r1 r2 : Row) : Bool :=
  valLeB ((r2.lookup "receivedAt").getD .null) ((r1.lookup "receivedAt").getD .null)

/-- SQL LIMIT semantics: a negative limit returns every row (SQLite), a
non-negative limit truncates. -/
def takeLimit {α : Type} (n : Int) (l : List α) : List α :=
  if n < 0 then l else l.take n.toNat

/-- Embeds `returnTableEntries`
(src/backend/src/utilities/databaseQueries.ts): filter the rows by the
clause built from the condition; the tempAndHumidity table is additionally
sorted by received_at descending; the limit is then applied. -/
def returnTableEntries (tableName : String) (rows : List Row)
    (condition : List (String × Val)) (amount : Int) : List Row :=
  let filtered := rows.filter (evalWhere (buildWhere condition))
  let ordered :=
    if tableName = "tempAndHumidity" then sortByLe rowDescReceivedAt filtered
    else filtered
  takeLimit amount ordered

/-- The base-10 integer parsing of JS `parseInt`: skip leading spaces, an
optional sign, then the longest digit prefix; no digit at all is NaN
(modelled as none). -/
def jsParseInt (s : String) : Option Int :=
  let cs := s.data.dropWhile (fun c => c = ' ')
  let signed : Bool × List Char :=
    match cs with
    | '-' :: rest => (true, rest)
    | '+' :: rest => (false, rest)
    | _ => (false, cs)
  let ds := signed.2.takeWhile Char.isDigit
  if ds.isEmpty then none
  else
    let n : Nat := ds.foldl (fun acc c => acc * 10 + (c.toNat - 48)) 0
    some (if signed.1 then -(n : Int) else (n : Int))

/-- The limit computation of `handleGetTableEntries`
(src/backend/src/handlers/getTableEntries.ts):
`queryParams.limit ? parseInt(queryParams.limit) : 100`.  An absent or
falsy (empty) limit parameter defaults to 100; otherwise the parameter is
parsed, `none` standing for the NaN of a malformed limit. -/
def effLimit (params : List (String × String)) : Option Int :=
  match params.lookup "limit" with
  | none => some 100
  | some s => if s = "" then some 100 else jsParseInt s

/-- The condition object of `handleGetTableEntries`: every query parameter
except `limit`, as string equality values. -/
def condOf (params : List (String × String)) : List (String × Val) :=
  (params.filter (fun p => !(p.1 = "limit"))).map (fun p => (p.1, Val.str p.2))

/-- Embeds `handleGetTableEntries`
(src/backend/src/handlers/getTableEntries.ts): compute the effective limit,
strip it from the parameters, and query the gateway; a NaN limit makes the
store query fail (none). -/
def handleGetTableEntries (tableName : String) (params : List (String × String))
    (rows : List Row) : Option (List Row) :=
  match effLimit params with
  | none => none
  | some l => some (returnTableEntries tableName rows (condOf params) l)





/-- The names exported by schema.ts, in declaration order: the runtime
object the generic GET route indexes by table name. -/
def schemaExportNames : List String :=
  ["user", "sensorsTypeEnum", "sensors", "zone", "tempAndHumidityTypeEnum",
   "tempAndHumidity", "pingsConfirmedEnum", "pings", "waterSchedule",
   "fanSchedule", "waterLog", "fanLog", "rasPiStatusEnum", "rasPi",
   "alertSeverityEnum", "alertStatusEnum", "alert", "integration",
   "plantInventory"]

/-- Outcome of the generic data route: a response produced before any store
access, or a dispatch to `handleGetTableEntries` (the only arm that issues
a store query). -/
inductive GetDataOutcome where
  | notFound (status : Nat) (error : String)
  | query (tableName : String)
deriving DecidableEq, Repr

/-- Embeds the route `app.get(api/data/:table)`
(src/backend/src/handlers/raspiHandlers.ts, index.ts chunk): the table name
indexes the schema namespace object; a name that is not exported is falsy,
so the route answers 404 with `Table <name> not found` and never reaches
`handleGetTableEntries`. -/
def getDataRoute (tableName : String) : GetDataOutcome :=
  if schemaExportNames.contains tableName then .query tableName
  else .notFound 404 ("Table " ++ tableName ++ " not found")

/-- Outcome of the required-fields validator: a rejection response carrying
the HTTP status and the missingFields list, or a pass. -/
inductive ValidateResult where
  | reject (status : Nat) (missingFields : List String)
  | valid
deriving DecidableEq, Repr

/-- Embeds `validateCompleteEntry` (src/unnamed/part_015): the missing
fields are the declared required fields whose value in the entry is
undefined; any missing field rejects with `{success: false, missingFields,
entry}` at HTTP status 500, otherwise the entry passes. -/
def validateCompleteEntry (entry : Entry) (requiredFields : List String) :
    ValidateResult :=
  let missing := requiredFields.filter (fun f => decide (entry.lookup f = none))
  if missing.length > 0 then .reject 500 missing else .valid

/-- Outcome of the full-update route: a validation rejection, or the edit
result of the gateway. -/
inductive PutOutcome where
  | rejected (status : Nat) (missingFields : List String)
  | updated (r : EditOneResult)
deriving DecidableEq, Repr

/-- Modelled from the spec: the repository contains no
`app.put(/api/data/...)` route wiring under src (only the validator
`validateCompleteEntry` and its batch variant exist); per the spec, PUT
validates the body against the declared required fields of the table and
only on a pass proceeds to the primary-key update, so a rejection mutates
no row. -/
def putDataRoute (rows : List Row) (entry : Entry) (pk : String)
    (requiredFields : List String) : PutOutcome × List Row :=
  match validateCompleteEntry entry requiredFields with
  | .reject st missing => (.rejected st missing, rows)
  | .valid =>
    let r := handleEditTableEntry rows entry pk
    (.updated r.1, r.2)

/-- The required-field list for the user table named by the spec scenario:
email, firstName, lastName. -/
def userRequiredFields : List String := ["email", "firstName", "lastName"]

/-- The catch branch of `handleAddTableEntry`
(src/backend/src/handlers/addTableEntry.ts), as a function from the thrown
error message to the (status, error body) response. -/
def addTableEntryCatch (_errMsg : String) : Nat × String :=
  (500, "Failed to insert entry.")

/-- The catch branch of `handleGetTableEntries`
(src/backend/src/handlers/getTableEntries.ts). -/
def getTableEntriesCatch (_errMsg : String) : Nat × String :=
  (500, "Failed to retrieve entry")

/-- The catch branch of the batch `handleEditTableEntries`
(src/backend/src/handlers/editEntryHandlers.ts). -/
def editTableEntriesCatch (_errMsg : String) : Nat × String :=
  (500, "Failed to retrieve entry")

/-- The catch branch of the single `handleEditTableEntry`
(src/backend/src/schema.ts, second chunk): the response text concatenates
the thrown error onto the message. -/
def editTableEntryCatch (errMsg : String) : Nat × String :=
  (500, "Failed to retrieve entry: " ++ errMsg)

/-- The catch branch of `handleRaspiPairing`
(src/backend/src/handlers/raspiHandlers.ts, lines 86-89): the response body
is `{error: (error as Error).message}` at 500, so it carries the thrown
message itself. -/
def handleRaspiPairingCatch (errMsg : String) : Nat × String :=
  (500, errMsg)

/-- ASCII lower-casing, the effect of JS `toLowerCase` on the characters
that matter to a MAC address. -/
def jsToLower (c : Char) : Char :=
  if 'A' ≤ c ∧ c ≤ 'Z' then Char.ofNat (c.toNat + 32) else c

/-- Whether a character survives the filter `[^0-9a-f]` of `normalizeMac`:
a decimal digit or a lower-case hex letter. -/
def isHexLowerDigit (c : Char) : Bool :=
  ('0' ≤ c && c ≤ '9') || ('a' ≤ c && c ≤ 'f')

/-- The hex digits extracted from a raw MAC string: lower-case the input,
then drop every character that is not a lower-case hex digit
(`raw.toLowerCase().replace(/[^0-9a-f]/g, "")`). -/
def hexOf (s : String) : List Char :=
  (s.data.map jsToLower).filter isHexLowerDigit

/-- The grouping `hex.match(/.{2}/g)`: split into consecutive pairs (a
trailing odd character would be dropped; the caller guarantees length 12).
-/
def chunk2 : List Char → List (List Char)
  | a :: b :: rest => [a, b] :: chunk2 rest
  | _ => []

/-- The `join(":")` over the two-character groups. -/
def joinColon (gs : List (List Char)) : List Char :=
  List.intercalate [':'] gs

/-- Embeds `normalizeMac` (src/backend/src/utilities/normalizeMac.ts): a
falsy (empty) input is null; otherwise the input is lower-cased and
stripped to its hex digits, exactly 12 of which are required, and the
result is the digits grouped in pairs joined by colons. -/
def normalizeMac (raw : String) : Option String :=
  if raw = "" then none
  else
    let hex := hexOf raw
    if hex.length = 12 then some (String.mk (joinColon (chunk2 hex)))
    else none

/-- The canonical MAC shape asserted by the claim: exactly six two-hex-digit
lower-case groups joined by single colons. -/
def isCanonicalMac (s : String) : Bool :=
  match s.data with
  | [a, b, s1, c, d, s2, e, f, s3, g, h, s4, i, j, s5, k, l] =>
    (s1 = ':' && s2 = ':' && s3 = ':' && s4 = ':' && s5 = ':') &&
      [a, b, c, d, e, f, g, h, i, j, k, l].all isHexLowerDigit
  | _ => false







/-- C1.  For every table store, entry and primary key: an absent (or falsy,
which the `if(!pkValue)` check of the source treats the same way)
primary-key value is rejected as "missing primary key" with the store
unchanged; a truthy primary-key value matching zero stored rows is rejected
as "no match" with the store unchanged; one matching more than one stored
row is rejected as ">1 match, ambiguous" (the AmbiguousMatch error) with
the store unchanged; and a successful update happens only when the
primary-key value matches exactly one stored row. -/
theorem handleEditTableEntry_single_match_discipline :
    ∀ (rows : List Row) (entry : Entry) (pk : String),
      (jsTruthyOpt (entry.lookup pk) = false →
        handleEditTableEntry rows entry pk = (.reject 400 "missing primary key", rows)) ∧
      (∀ v, entry.lookup pk = some v → v.truthy = true →
        (matchingRows rows pk v).length = 0 →
        handleEditTableEntry rows entry pk = (.reject 400 "no match", rows)) ∧
      (∀ v, entry.lookup pk = some v → v.truthy = true →
        1 < (matchingRows rows pk v).length →
        handleEditTableEntry rows entry pk = (.reject 400 ">1 match, ambiguous", rows)) ∧
      (∀ res rows2, handleEditTableEntry rows entry pk = (.ok res, rows2) →
        ∃ v, entry.lookup pk = some v ∧ v.truthy = true ∧
          (matchingRows rows pk v).length = 1 ∧
          rows2 = runUpdate rows pk v entry ∧ res = entry) := by
  intro rows entry pk
  refine ⟨?_, ?_, ?_, ?_⟩
  · intro h
    cases hl : entry.lookup pk with
    | none => simp [handleEditTableEntry, hl]
    | some v =>
      rw [hl] at h
      simp only [jsTruthyOpt] at h
      simp [handleEditTableEntry, hl, h]
  · intro v hv htr h0
    simp [handleEditTableEntry, hv, htr, h0]
  · intro v hv htr h1
    have h0 : ¬((matchingRows rows pk v).length = 0) := by omega
    simp [handleEditTableEntry, hv, htr, h0, h1]
  · intro res rows2 h
    cases hl : entry.lookup pk with
    | none => simp [handleEditTableEntry, hl] at h
    | some v =>
      simp only [handleEditTableEntry, hl] at h
      by_cases htr : v.truthy = false
      · simp [htr] at h
      · simp only [htr, if_false] at h
        by_cases h0 : (matchingRows rows pk v).length = 0
        · simp [h0] at h
        · by_cases h1 : (matchingRows rows pk v).length > 1
          · simp [h0, h1] at h
          · simp only [h0, h1, if_false] at h
            refine ⟨v, rfl, by simpa using htr, by omega, ?_, ?_⟩
            · exact (Prod.mk.injEq _ _ _ _ ▸ h).2.symm
            · have := (Prod.mk.injEq _ _ _ _ ▸ h).1
              cases this
              rfl

/-- Witness for C1: all four branches at concrete stores and entries. -/
theorem handleEditTableEntry_single_match_discipline_witness :
    handleEditTableEntry [[("id", Val.str "1")]] [("a", Val.str "z")] "id"
      = (.reject 400 "missing primary key", [[("id", Val.str "1")]]) ∧
    handleEditTableEntry [[("id", Val.str "1")]] [("id", Val.str "2")] "id"
      = (.reject 400 "no match", [[("id", Val.str "1")]]) ∧
    handleEditTableEntry [[("id", Val.str "1")], [("id", Val.str "1")]]
        [("id", Val.str "1")] "id"
      = (.reject 400 ">1 match, ambiguous",
         [[("id", Val.str "1")], [("id", Val.str "1")]]) ∧
    (∃ v, ([("id", Val.str "1"), ("a", Val.str "z")] : Entry).lookup "id" = some v ∧
      v.truthy = true ∧
      (matchingRows [[("id", Val.str "1")]] "id" v).length = 1 ∧
      runUpdate [[("id", Val.str "1")]] "id" v [("id", Val.str "1"), ("a", Val.str "z")]
        = runUpdate [[("id", Val.str "1")]] "id" v [("id", Val.str "1"), ("a", Val.str "z")] ∧
      ([("id", Val.str "1"), ("a", Val.str "z")] : Entry)
        = [("id", Val.str "1"), ("a", Val.str "z")]) := by
  refine ⟨?_, ?_, ?_, ?_⟩
  · exact (handleEditTableEntry_single_match_discipline _ _ _).1 (by decide)
  · exact (handleEditTableEntry_single_match_discipline _ _ _).2.1
      (Val.str "2") (by decide) (by decide) (by decide)
  · exact (handleEditTableEntry_single_match_discipline _ _ _).2.2.1
      (Val.str "1") (by decide) (by decide) (by decide)
  · obtain ⟨v, h1, h2, h3, _, _⟩ :=
      (handleEditTableEntry_single_match_discipline
        [[("id", Val.str "1")]] [("id", Val.str "1"), ("a", Val.str "z")] "id").2.2.2
        [("id", Val.str "1"), ("a", Val.str "z")]
        [[("id", Val.str "1"), ("a", Val.str "z")]] (by decide)
    exact ⟨v, h1, h2, h3, rfl, rfl⟩

/-- Counterexample for C3: updating the single matching row with a partial
entry succeeds, the stored row keeps its column b (post-update state), yet
the response data is the supplied entry, which has no column b — the
handler does not return the post-update row state. -/
theorem handleEditTableEntry_no_refetch_cex :
    handleEditTableEntry
        [[("id", Val.str "1"), ("a", Val.str "x"), ("b", Val.str "y")]]
        [("id", Val.str "1"), ("a", Val.str "z")] "id"
      = (.ok [("id", Val.str "1"), ("a", Val.str "z")],
         [[("id", Val.str "1"), ("a", Val.str "z"), ("b", Val.str "y")]]) ∧
    ([("id", Val.str "1"), ("a", Val.str "z")] : Entry).lookup "b" = none ∧
    ([("id", Val.str "1"), ("a", Val.str "z"), ("b", Val.str "y")] : Row).lookup "b"
      = some (Val.str "y") := by decide

/-- C3 (amended).  On exactly one match the handler applies the update to
the store and returns the supplied entry itself as the response data: it
does not re-fetch the row, so columns absent from the entry are absent from
the response. -/
theorem handleEditTableEntry_returns_patch :
    ∀ (rows : List Row) (entry : Entry) (pk : String) (v : Val),
      entry.lookup pk = some v → v.truthy = true →
      (matchingRows rows pk v).length = 1 →
      handleEditTableEntry rows entry pk = (.ok entry, runUpdate rows pk v entry) := by
  intro rows entry pk v hv htr h1
  have h0 : ¬((matchingRows rows pk v).length = 0) := by omega
  have h2 : ¬((matchingRows rows pk v).length > 1) := by omega
  simp [handleEditTableEntry, hv, htr, h0, h2]

/-- Witness for the amended C3 at a concrete store and entry. -/
theorem handleEditTableEntry_returns_patch_witness :
    handleEditTableEntry
        [[("id", Val.str "1"), ("a", Val.str "x"), ("b", Val.str "y")]]
        [("id", Val.str "1"), ("a", Val.str "z")] "id"
      = (.ok [("id", Val.str "1"), ("a", Val.str "z")],
         runUpdate [[("id", Val.str "1"), ("a", Val.str "x"), ("b", Val.str "y")]]
           "id" (Val.str "1") [("id", Val.str "1"), ("a", Val.str "z")]) :=
  handleEditTableEntry_returns_patch _ _ _ (Val.str "1")
    (by decide) (by decide) (by decide)

/-- C7 evaluation.  A full-update body for the user table missing the
required lastName field is rejected with missingFields exactly
["lastName"] and no row is mutated — but at HTTP status 500, where the
claim (and the routing conventions documented in index.ts) say 400. -/
theorem validateCompleteEntry_missing_lastName_status :
    putDataRoute
        [[("id", Val.str "u1"), ("email", Val.str "old@b.com"),
          ("firstName", Val.str "Old"), ("lastName", Val.str "Name")]]
        [("email", Val.str "a@b.com"), ("firstName", Val.str "A")]
        "id" userRequiredFields
      = (.rejected 500 ["lastName"],
         [[("id", Val.str "u1"), ("email", Val.str "old@b.com"),
           ("firstName", Val.str "Old"), ("lastName", Val.str "Name")]]) := by decide

/-- Counterexample for C8: the 500 response of the pairing handler depends
on the internal error — its body is the thrown message itself, so internal
error detail reaches the client. -/
theorem handleRaspiPairingCatch_leaks_detail :
    handleRaspiPairingCatch "internal failure detail A"
      ≠ handleRaspiPairingCatch "internal failure detail B" := by decide

/-- C8 (amended).  The add, get and batch-edit adapters surface every
internal failure as a fixed generic 500 message independent of the error,
but the single-edit handler of schema.ts appends the thrown error text to
its 500 message and the pairing handler of raspiHandlers.ts returns the
thrown message itself as the 500 body. -/
theorem adapterCatch_amended :
    ∀ e1 e2 : String,
      addTableEntryCatch e1 = addTableEntryCatch e2 ∧
      getTableEntriesCatch e1 = getTableEntriesCatch e2 ∧
      editTableEntriesCatch e1 = editTableEntriesCatch e2 ∧
      (addTableEntryCatch e1).1 = 500 ∧
      (getTableEntriesCatch e1).1 = 500 ∧
      (editTableEntriesCatch e1).1 = 500 ∧
      editTableEntryCatch e1 = (500, "Failed to retrieve entry: " ++ e1) ∧
      handleRaspiPairingCatch e1 = (500, e1) := by
  intro e1 e2
  exact ⟨rfl, rfl, rfl, rfl, rfl, rfl, rfl, rfl⟩

/-- C9.  Any table name that is not an export of schema.ts makes the
generic GET data route answer 404 with the body
`Table <name> not found`, produced as a total lookup result rather than an
exception, and the route never reaches the store-querying arm. -/
theorem getDataRoute_unknown_table :
    ∀ name, schemaExportNames.contains name = false →
      getDataRoute name = .notFound 404 ("Table " ++ name ++ " not found") ∧
      ∀ t, ¬(getDataRoute name = .query t) := by
  intro name h
  rw [getDataRoute, h]
  refine ⟨by simp, ?_⟩
  intro t ht
  simp at ht

/-- Witness for C9: the spec scenario table name. -/
theorem getDataRoute_unknown_table_witness :
    getDataRoute "unknownTable" = .notFound 404 "Table unknownTable not found" ∧
    ∀ t, ¬(getDataRoute "unknownTable" = .query t) := by
  have h := getDataRoute_unknown_table "unknownTable" (by decide)
  exact ⟨h.1, h.2⟩

theorem mem_insertLe {α : Type} (le : α → α → Bool) (x y : α) (l : List α) :
    y ∈ insertLe le x l ↔ y = x ∨ y ∈ l := by
  induction l with
  | nil => simp [insertLe]
  | cons a l ih =>
    rw [insertLe]
    split
    · simp [List.mem_cons]
    · simp only [List.mem_cons, ih]
      tauto

theorem mem_sortByLe {α : Type} (le : α → α → Bool) (x : α) (l : List α) :
    x ∈ sortByLe le l ↔ x ∈ l := by
  induction l with
  | nil => simp [sortByLe]
  | cons a l ih =>
    simp only [sortByLe, List.foldr_cons]
    rw [show l.foldr (insertLe le) [] = sortByLe le l from rfl] at *
    rw [mem_insertLe, ih]
    simp [eq_comm]

theorem length_insertLe {α : Type} (le : α → α → Bool) (x : α) (l : List α) :
    (insertLe le x l).length = l.length + 1 := by
  induction l with
  | nil => simp [insertLe]
  | cons a l ih =>
    by_cases h : le x a = true
    · simp [insertLe, h]
    · simp [insertLe, h, ih]

theorem length_sortByLe {α : Type} (le : α → α → Bool) (l : List α) :
    (sortByLe le l).length = l.length := by
  induction l with
  | nil => rfl
  | cons a l ih =>
    simp only [sortByLe, List.foldr_cons] at *
    rw [length_insertLe, ih, List.length_cons]

theorem mem_takeLimit {α : Type} (n : Int) (l : List α) (x : α) :
    x ∈ takeLimit n l → x ∈ l := by
  rw [takeLimit]
  by_cases h : n < 0
  · simp [h]
  · simp only [h, if_false]
    exact fun hx => List.take_subset _ _ hx

theorem length_takeLimit_nat {α : Type} (n : Nat) (l : List α) :
    (takeLimit (n : Int) l).length ≤ n := by
  rw [takeLimit]
  have h : ¬((n : Int) < 0) := by omega
  simp only [h, if_false, Int.toNat_ofNat]
  simp [List.length_take]

/-- C5.  The condition builder turns one key/value pair into a lone
equality clause (no AND wrapper) and two or more pairs into a conjunction,
and every row returned by the gateway under a condition of two or more
pairs satisfies every key/value pair of the condition. -/
theorem returnTableEntries_conjunction :
    ∀ (tname : String) (rows : List Row) (cond : List (String × Val)) (amount : Int),
      (∀ p, buildWhere [p] = .single p) ∧
      (2 ≤ cond.length → buildWhere cond = .conj cond) ∧
      (2 ≤ cond.length →
        ∀ row ∈ returnTableEntries tname rows cond amount,
          ∀ p ∈ cond, row.lookup p.1 = some p.2) := by
  intro tname rows cond amount
  refine ⟨fun p => rfl, ?_, ?_⟩
  · intro h2
    match cond with
    | [] => simp at h2
    | [p] => simp at h2
    | p :: q :: rest => rfl
  · intro h2 row hrow p hp
    have hconj : buildWhere cond = .conj cond := by
      match cond with
      | [] => simp at h2
      | [q] => simp at h2
      | q :: r :: rest => rfl
    have hmem : row ∈ rows.filter (evalWhere (buildWhere cond)) := by
      have h1 := mem_takeLimit amount _ row hrow
      by_cases hs : tname = "tempAndHumidity"
      · rw [returnTableEntries] at hrow
        simp only [hs, if_true] at hrow
        have := mem_takeLimit amount _ row hrow
        rwa [mem_sortByLe] at this
      · rw [returnTableEntries] at hrow
        simp only [hs, if_false] at hrow
        exact mem_takeLimit amount _ row hrow
    have := List.of_mem_filter hmem
    rw [hconj] at this
    simp only [evalWhere, List.all_eq_true] at this
    have := this p hp
    simpa using this

/-- Witness for C5 at a concrete two-pair condition. -/
theorem returnTableEntries_conjunction_witness :
    buildWhere [(("a" : String), Val.str "1")] = .single ("a", Val.str "1") ∧
    buildWhere [(("a" : String), Val.str "1"), ("b", Val.str "2")]
      = .conj [("a", Val.str "1"), ("b", Val.str "2")] ∧
    (∀ row ∈ returnTableEntries "zone"
        [[("a", Val.str "1"), ("b", Val.str "2")], [("a", Val.str "1"), ("b", Val.str "3")]]
        [("a", Val.str "1"), ("b", Val.str "2")] 100,
      ∀ p ∈ [(("a" : String), Val.str "1"), ("b", Val.str "2")],
        row.lookup p.1 = some p.2) := by
  have h := returnTableEntries_conjunction "zone"
    [[("a", Val.str "1"), ("b", Val.str "2")], [("a", Val.str "1"), ("b", Val.str "3")]]
    [("a", Val.str "1"), ("b", Val.str "2")] 100
  exact ⟨h.1 _, h.2.1 (by decide), h.2.2 (by decide)⟩

/-- C6.  The GET adapter defaults the limit to 100 when the caller passes
none and uses the parsed caller limit otherwise; under an empty condition
the gateway builds no WHERE clause, returns at most `limit` rows, every
returned row comes from the store, and (outside the one sorted table) the
result is exactly the first `limit` stored rows. -/
theorem getTableEntries_limit_and_scan :
    ∀ (params : List (String × String)) (tname : String) (rows : List Row)
      (n : Nat) (s : String) (m : Int),
      (params.lookup "limit" = none → effLimit params = some 100) ∧
      (params.lookup "limit" = some s → ¬(s = "") → jsParseInt s = some m →
        effLimit params = some m) ∧
      buildWhere [] = .all ∧
      (returnTableEntries tname rows [] (n : Int)).length ≤ n ∧
      (∀ row ∈ returnTableEntries tname rows [] (n : Int), row ∈ rows) ∧
      (¬(tname = "tempAndHumidity") →
        returnTableEntries tname rows [] (n : Int) = rows.take n) ∧
      (∀ l, effLimit params = some l →
        handleGetTableEntries tname params rows
          = some (returnTableEntries tname rows (condOf params) l)) := by
  intro params tname rows n s m
  refine ⟨?_, ?_, rfl, ?_, ?_, ?_, ?_⟩
  · intro h
    simp [effLimit, h]
  · intro h hs hp
    simp [effLimit, h, hs, hp]
  · rw [returnTableEntries]
    have hfilter : rows.filter (evalWhere (buildWhere [])) = rows := by
      simp [buildWhere, evalWhere]
    simp only [hfilter]
    by_cases hs : tname = "tempAndHumidity"
    · rw [if_pos hs]
      exact length_takeLimit_nat n _
    · rw [if_neg hs]
      exact length_takeLimit_nat n rows
  · intro row hrow
    rw [returnTableEntries] at hrow
    have hfilter : rows.filter (evalWhere (buildWhere [])) = rows := by
      simp [buildWhere, evalWhere]
    simp only [hfilter] at hrow
    by_cases hs : tname = "tempAndHumidity"
    · rw [if_pos hs] at hrow
      have := mem_takeLimit _ _ row hrow
      rwa [mem_sortByLe] at this
    · rw [if_neg hs] at hrow
      exact mem_takeLimit _ _ row hrow
  · intro hs
    rw [returnTableEntries]
    have hfilter : rows.filter (evalWhere (buildWhere [])) = rows := by
      simp [buildWhere, evalWhere]
    simp only [hfilter]
    rw [if_neg hs, takeLimit]
    have h : ¬((n : Int) < 0) := by omega
    simp [h]
  · intro l hl
    rw [handleGetTableEntries, hl]

/-- Witness for C6 at concrete parameters, store and limit. -/
theorem getTableEntries_limit_and_scan_witness :
    effLimit [(("userId" : String), "u1")] = some 100 ∧
    effLimit [(("limit" : String), "2")] = some 2 ∧
    (returnTableEntries "zone" [[("a", Val.str "1")], [("a", Val.str "2")],
        [("a", Val.str "3")]] [] ((2 : Nat) : Int)).length ≤ 2 ∧
    returnTableEntries "zone" [[("a", Val.str "1")], [("a", Val.str "2")],
        [("a", Val.str "3")]] [] ((2 : Nat) : Int)
      = [[("a", Val.str "1")], [("a", Val.str "2")], [("a", Val.str "3")]].take 2 ∧
    handleGetTableEntries "zone" [("limit", "2")]
        [[("a", Val.str "1")], [("a", Val.str "2")], [("a", Val.str "3")]]
      = some (returnTableEntries "zone"
          [[("a", Val.str "1")], [("a", Val.str "2")], [("a", Val.str "3")]]
          (condOf [("limit", "2")]) 2) := by
  have h1 := getTableEntries_limit_and_scan [("userId", "u1")] "zone" [] 0 "" 0
  have h2 := getTableEntries_limit_and_scan [("limit", "2")] "zone"
    [[("a", Val.str "1")], [("a", Val.str "2")], [("a", Val.str "3")]] 2 "2" 2
  exact ⟨h1.1 (by decide), h2.2.1 (by decide) (by decide) (by decide),
    h2.2.2.2.1, h2.2.2.2.2.2.1 (by decide), h2.2.2.2.2.2.2 2 (by decide)⟩

theorem editStep_shift (pk : String) (rows : List Row) (vc : Nat)
    (inv : List (Entry × String)) (e : Entry) :
    editStep pk (rows, ⟨vc, inv⟩) e =
      ((editStep pk (rows, ⟨0, []⟩) e).1,
       ⟨vc + (editStep pk (rows, ⟨0, []⟩) e).2.validCount,
        inv ++ (editStep pk (rows, ⟨0, []⟩) e).2.invalidEntries⟩) := by
  rw [editStep, editStep]
  cases hl : e.lookup pk with
  | none => simp
  | some v =>
    by_cases htr : v.truthy = false
    · simp [htr]
    · simp only [htr, if_false]
      by_cases h0 : (matchingRows rows pk v).length = 0
      · simp [h0]
      · by_cases h1 : (matchingRows rows pk v).length > 1
        · simp [h0, h1]
        · simp [h0, h1]

theorem foldl_editStep_shift (pk : String) (es : List Entry) :
    ∀ (rows : List Row) (vc : Nat) (inv : List (Entry × String)),
      es.foldl (editStep pk) (rows, ⟨vc, inv⟩) =
        ((es.foldl (editStep pk) (rows, ⟨0, []⟩)).1,
         ⟨vc + (es.foldl (editStep pk) (rows, ⟨0, []⟩)).2.validCount,
          inv ++ (es.foldl (editStep pk) (rows, ⟨0, []⟩)).2.invalidEntries⟩) := by
  induction es with
  | nil => intro rows vc inv; simp
  | cons e es ih =>
    intro rows vc inv
    rw [List.foldl_cons, List.foldl_cons, editStep_shift]
    obtain ⟨r1, t1⟩ := editStep pk (rows, ⟨0, []⟩) e
    rw [ih r1 (vc + t1.validCount) (inv ++ t1.invalidEntries),
      ih r1 t1.validCount t1.invalidEntries]
    simp [Nat.add_assoc]

theorem editStep_tally_one (pk : String) (rows : List Row) (e : Entry) :
    (editStep pk (rows, ⟨0, []⟩) e).2.validCount
      + (editStep pk (rows, ⟨0, []⟩) e).2.invalidEntries.length = 1 := by
  rw [editStep]
  cases hl : e.lookup pk with
  | none => simp
  | some v =>
    by_cases htr : v.truthy = false
    · simp [htr]
    · simp only [htr, if_false]
      by_cases h0 : (matchingRows rows pk v).length = 0
      · simp [h0]
      · by_cases h1 : (matchingRows rows pk v).length > 1
        · simp [h0, h1]
        · simp [h0, h1]

theorem handleEditTableEntries_count (pk : String) (es : List Entry) :
    ∀ rows : List Row,
      (handleEditTableEntries rows es pk).2.validCount
        + (handleEditTableEntries rows es pk).2.invalidEntries.length
      = es.length := by
  induction es with
  | nil => intro rows; rfl
  | cons e es ih =>
    intro rows
    rw [handleEditTableEntries, List.foldl_cons]
    have hseed : editStep pk (rows, ⟨0, []⟩) e
        = ((editStep pk (rows, ⟨0, []⟩) e).1,
           ⟨(editStep pk (rows, ⟨0, []⟩) e).2.validCount,
            (editStep pk (rows, ⟨0, []⟩) e).2.invalidEntries⟩) := rfl
    rw [hseed, foldl_editStep_shift]
    have hone := editStep_tally_one pk rows e
    have hih := ih (editStep pk (rows, ⟨0, []⟩) e).1
    rw [handleEditTableEntries] at hih
    dsimp only
    simp only [List.length_cons, List.length_append]
    omega

/-- C2.  The batch edit handler processes entries in order and keeps going
past failures: processing a concatenation equals processing the first part
and continuing from its resulting store, adding the tallies and
concatenating the invalid lists; the tally always accounts for every entry
(validCount plus the number of invalid entries is the batch size); and for
a batch of one valid entry followed by one entry lacking its primary key,
the valid update is applied to the store while the failed entry is reported
with reason "missing primary key" — no atomicity across the batch. -/
theorem handleEditTableEntries_batch_tally :
    ∀ (rows : List Row) (es1 es2 : List Entry) (pk : String) (e1 e2 : Entry) (v : Val),
      (handleEditTableEntries rows (es1 ++ es2) pk =
        ((handleEditTableEntries (handleEditTableEntries rows es1 pk).1 es2 pk).1,
         ⟨(handleEditTableEntries rows es1 pk).2.validCount
            + (handleEditTableEntries (handleEditTableEntries rows es1 pk).1 es2 pk).2.validCount,
          (handleEditTableEntries rows es1 pk).2.invalidEntries
            ++ (handleEditTableEntries (handleEditTableEntries rows es1 pk).1 es2 pk).2.invalidEntries⟩)) ∧
      ((handleEditTableEntries rows es1 pk).2.validCount
        + (handleEditTableEntries rows es1 pk).2.invalidEntries.length = es1.length) ∧
      (e1.lookup pk = some v → v.truthy = true →
        (matchingRows rows pk v).length = 1 →
        jsTruthyOpt (e2.lookup pk) = false →
        handleEditTableEntries rows [e1, e2] pk =
          (runUpdate rows pk v e1, ⟨1, [(e2, "missing primary key")]⟩)) := by
  intro rows es1 es2 pk e1 e2 v
  refine ⟨?_, handleEditTableEntries_count pk es1 rows, ?_⟩
  · rw [handleEditTableEntries, List.foldl_append]
    rw [show es1.foldl (editStep pk) (rows, ⟨0, []⟩) = handleEditTableEntries rows es1 pk from rfl]
    obtain hsplit : handleEditTableEntries rows es1 pk
        = ((handleEditTableEntries rows es1 pk).1, (handleEditTableEntries rows es1 pk).2) := rfl
    rw [hsplit]
    obtain ⟨vc1, inv1⟩ := (handleEditTableEntries rows es1 pk).2
    rw [foldl_editStep_shift]
    rfl
  · intro hv htr h1 h2
    have h0 : ¬((matchingRows rows pk v).length = 0) := by omega
    have hgt : ¬((matchingRows rows pk v).length > 1) := by omega
    rw [handleEditTableEntries, List.foldl_cons]
    rw [show editStep pk (rows, ⟨0, []⟩) e1
        = (runUpdate rows pk v e1, ⟨1, []⟩) from by
      rw [editStep]; simp [hv, htr, h0, hgt]]
    rw [List.foldl_cons, List.foldl_nil]
    rw [editStep]
    cases hl : e2.lookup pk with
    | none => simp
    | some w =>
      rw [hl] at h2
      simp only [jsTruthyOpt] at h2
      simp [h2]

/-- Witness for C2: a concrete store and batch with one valid entry and one
entry lacking its primary key. -/
theorem handleEditTableEntries_batch_tally_witness :
    handleEditTableEntries [[("id", Val.str "1"), ("a", Val.str "x")]]
        ([[("id", Val.str "1"), ("a", Val.str "z")]] ++ [[("a", Val.str "w")]]) "id"
      = ((handleEditTableEntries
            (handleEditTableEntries [[("id", Val.str "1"), ("a", Val.str "x")]]
              [[("id", Val.str "1"), ("a", Val.str "z")]] "id").1
            [[("a", Val.str "w")]] "id").1,
         ⟨(handleEditTableEntries [[("id", Val.str "1"), ("a", Val.str "x")]]
              [[("id", Val.str "1"), ("a", Val.str "z")]] "id").2.validCount
            + (handleEditTableEntries
                (handleEditTableEntries [[("id", Val.str "1"), ("a", Val.str "x")]]
                  [[("id", Val.str "1"), ("a", Val.str "z")]] "id").1
                [[("a", Val.str "w")]] "id").2.validCount,
          (handleEditTableEntries [[("id", Val.str "1"), ("a", Val.str "x")]]
              [[("id", Val.str "1"), ("a", Val.str "z")]] "id").2.invalidEntries
            ++ (handleEditTableEntries
                (handleEditTableEntries [[("id", Val.str "1"), ("a", Val.str "x")]]
                  [[("id", Val.str "1"), ("a", Val.str "z")]] "id").1
                [[("a", Val.str "w")]] "id").2.invalidEntries⟩) ∧
    handleEditTableEntries [[("id", Val.str "1"), ("a", Val.str "x")]]
        [[("id", Val.str "1"), ("a", Val.str "z")], [("a", Val.str "w")]] "id"
      = (runUpdate [[("id", Val.str "1"), ("a", Val.str "x")]] "id" (Val.str "1")
           [("id", Val.str "1"), ("a", Val.str "z")],
         ⟨1, [([("a", Val.str "w")], "missing primary key")]⟩) := by
  have h := handleEditTableEntries_batch_tally
    [[("id", Val.str "1"), ("a", Val.str "x")]]
    [[("id", Val.str "1"), ("a", Val.str "z")]] [[("a", Val.str "w")]] "id"
    [("id", Val.str "1"), ("a", Val.str "z")] [("a", Val.str "w")] (Val.str "1")
  exact ⟨h.1, h.2.2 (by decide) (by decide) (by decide) (by decide)⟩

theorem materializeColumn_key (env : GenEnv) (entry : Entry) (c : ColumnDesc)
    (p : String × Val) (h : materializeColumn env entry c = some p) :
    p.1 = c.name := by
  cases hl : entry.lookup c.name with
  | some v =>
    simp only [materializeColumn, hl] at h
    split at h
    · exact absurd h (by simp)
    · simp only [Option.some.injEq] at h
      rw [← h]
  | none =>
    cases hd : c.defaultGen with
    | some d =>
      simp only [materializeColumn, hl, hd, Option.some.injEq] at h
      rw [← h]
    | none =>
      simp only [materializeColumn, hl, hd] at h
      split at h
      · exact absurd h (by simp)
      · simp only [Option.some.injEq] at h
        rw [← h]

theorem materialize_lookup (env : GenEnv) (entry : Entry) :
    ∀ (desc : List ColumnDesc) (row : Row),
      (desc.map ColumnDesc.name).Nodup →
      materialize env entry desc = some row →
      ∀ c ∈ desc, ∃ v, materializeColumn env entry c = some (c.name, v) ∧
        row.lookup c.name = some v := by
  intro desc
  induction desc with
  | nil => intro row _ _ c hc; simp at hc
  | cons c0 cs ih =>
    intro row hnd hmat c hc
    rw [materialize] at hmat
    cases hcol : materializeColumn env entry c0 with
    | none => rw [hcol] at hmat; simp at hmat
    | some p =>
      rw [hcol] at hmat
      cases hrest : materialize env entry cs with
      | none => rw [hrest] at hmat; simp at hmat
      | some r =>
        rw [hrest] at hmat
        simp only [Option.some.injEq] at hmat
        have hkey := materializeColumn_key env entry c0 p hcol
        rcases List.mem_cons.mp hc with hc0 | hcs
        · subst hc0
          refine ⟨p.2, ?_, ?_⟩
          · rw [hcol]
            exact congrArg some (Prod.ext_iff.mpr ⟨hkey, rfl⟩)
          · rw [← hmat]
            have : p.1 = c.name := hkey
            simp [List.lookup, ← this]
        · have hnd2 : (cs.map ColumnDesc.name).Nodup := (List.nodup_cons.mp hnd).2
          have hne : ¬(c.name = c0.name) := by
            intro heq
            have hmem : c.name ∈ cs.map ColumnDesc.name := List.mem_map_of_mem _ hcs
            rw [heq] at hmem
            exact (List.nodup_cons.mp hnd).1 hmem
          obtain ⟨v, hv1, hv2⟩ := ih r hnd2 hrest c hcs
          refine ⟨v, hv1, ?_⟩
          rw [← hmat]
          have hp1 : ¬(c.name == p.1) = true := by
            simp [hkey, hne]
          simp only [List.lookup, hp1, if_false]
          exact hv2

/-- C4.  A successful insert through the gateway returns the fully
materialized stored row — the row appended to the store — and for every
column omitted from the entry that declares a default, the returned row
carries the generated default value, not merely what the entry supplied. -/
theorem insertTableEntry_returns_materialized :
    ∀ (desc : List ColumnDesc) (env : GenEnv) (rows : List Row) (entry : Entry)
      (row : Row),
      (desc.map ColumnDesc.name).Nodup →
      materialize env entry desc = some row →
      insertTableEntry desc env rows entry = (some row, rows ++ [row]) ∧
      (∀ c ∈ desc, ∀ d, c.defaultGen = some d → entry.lookup c.name = none →
        row.lookup c.name = some (genVal env d)) := by
  intro desc env rows entry row hnd hmat
  constructor
  · rw [insertTableEntry, hmat]
  · intro c hc d hd hent
    obtain ⟨v, hv1, hv2⟩ := materialize_lookup env entry desc row hnd hmat c hc
    rw [materializeColumn, hent, hd] at hv1
    simp only [Option.some.injEq, Prod.mk.injEq] at hv1
    rw [hv2, hv1.2]

/-- Witness for C4: inserting a user entry that omits the id and createdAt
columns returns the stored row carrying the generated identifier and
timestamp. -/
theorem insertTableEntry_returns_materialized_witness :
    insertTableEntry userColumns ⟨Val.str "uuid-1", Val.str "ts-1"⟩ []
        [("email", Val.str "a@b.com"), ("firstName", Val.str "A"), ("lastName", Val.str "B")]
      = (some [("id", Val.str "uuid-1"), ("createdAt", Val.str "ts-1"),
               ("location", Val.null), ("email", Val.str "a@b.com"),
               ("firstName", Val.str "A"), ("lastName", Val.str "B"),
               ("raspiMac", Val.null)],
         [[("id", Val.str "uuid-1"), ("createdAt", Val.str "ts-1"),
           ("location", Val.null), ("email", Val.str "a@b.com"),
           ("firstName", Val.str "A"), ("lastName", Val.str "B"),
           ("raspiMac", Val.null)]]) ∧
    ([("id", Val.str "uuid-1"), ("createdAt", Val.str "ts-1"),
      ("location", Val.null), ("email", Val.str "a@b.com"),
      ("firstName", Val.str "A"), ("lastName", Val.str "B"),
      ("raspiMac", Val.null)] : Row).lookup "id"
      = some (genVal ⟨Val.str "uuid-1", Val.str "ts-1"⟩ .randomUUID) := by
  have h := insertTableEntry_returns_materialized userColumns
    ⟨Val.str "uuid-1", Val.str "ts-1"⟩ []
    [("email", Val.str "a@b.com"), ("firstName", Val.str "A"), ("lastName", Val.str "B")]
    [("id", Val.str "uuid-1"), ("createdAt", Val.str "ts-1"),
     ("location", Val.null), ("email", Val.str "a@b.com"),
     ("firstName", Val.str "A"), ("lastName", Val.str "B"),
     ("raspiMac", Val.null)]
    (by decide) (by decide)
  exact ⟨h.1, h.2 ⟨"id", true, some .randomUUID⟩ (by decide) .randomUUID rfl (by decide)⟩

theorem jsToLower_fix (c : Char) (h : isHexLowerDigit c = true) :
    jsToLower c = c := by
  rw [jsToLower, if_neg]
  intro hc
  obtain ⟨hA, hZ⟩ := hc
  rw [isHexLowerDigit, Bool.or_eq_true, Bool.and_eq_true, Bool.and_eq_true] at h
  rcases h with ⟨h1, h2⟩ | ⟨h1, h2⟩
  · have h9 : c ≤ '9' := of_decide_eq_true h2
    have : 'A' ≤ '9' := le_trans hA h9
    exact absurd this (by decide)
  · have ha : 'a' ≤ c := of_decide_eq_true h1
    have : 'a' ≤ 'Z' := le_trans ha hZ
    exact absurd this (by decide)

theorem mac12 (l : List Char) (hl : l.length = 12)
    (hall : ∀ c ∈ l, isHexLowerDigit c = true) :
    isCanonicalMac (String.mk (joinColon (chunk2 l))) = true ∧
    hexOf (String.mk (joinColon (chunk2 l))) = l ∧
    ¬(String.mk (joinColon (chunk2 l)) = "") := by
  obtain ⟨x1, l, rfl⟩ := List.exists_of_length_succ l (show l.length = 11 + 1 by omega)
  simp only [List.length_cons] at hl
  obtain ⟨x2, l, rfl⟩ := List.exists_of_length_succ l (show l.length = 10 + 1 by omega)
  simp only [List.length_cons] at hl
  obtain ⟨x3, l, rfl⟩ := List.exists_of_length_succ l (show l.length = 9 + 1 by omega)
  simp only [List.length_cons] at hl
  obtain ⟨x4, l, rfl⟩ := List.exists_of_length_succ l (show l.length = 8 + 1 by omega)
  simp only [List.length_cons] at hl
  obtain ⟨x5, l, rfl⟩ := List.exists_of_length_succ l (show l.length = 7 + 1 by omega)
  simp only [List.length_cons] at hl
  obtain ⟨x6, l, rfl⟩ := List.exists_of_length_succ l (show l.length = 6 + 1 by omega)
  simp only [List.length_cons] at hl
  obtain ⟨x7, l, rfl⟩ := List.exists_of_length_succ l (show l.length = 5 + 1 by omega)
  simp only [List.length_cons] at hl
  obtain ⟨x8, l, rfl⟩ := List.exists_of_length_succ l (show l.length = 4 + 1 by omega)
  simp only [List.length_cons] at hl
  obtain ⟨x9, l, rfl⟩ := List.exists_of_length_succ l (show l.length = 3 + 1 by omega)
  simp only [List.length_cons] at hl
  obtain ⟨x10, l, rfl⟩ := List.exists_of_length_succ l (show l.length = 2 + 1 by omega)
  simp only [List.length_cons] at hl
  obtain ⟨x11, l, rfl⟩ := List.exists_of_length_succ l (show l.length = 1 + 1 by omega)
  simp only [List.length_cons] at hl
  obtain ⟨x12, l, rfl⟩ := List.exists_of_length_succ l (show l.length = 0 + 1 by omega)
  simp only [List.length_cons] at hl
  have hnil : l = [] := by
    have : l.length = 0 := by omega
    exact List.length_eq_zero.mp this
  subst hnil
  have h1 : isHexLowerDigit x1 = true := hall x1 (by simp)
  have h2 : isHexLowerDigit x2 = true := hall x2 (by simp)
  have h3 : isHexLowerDigit x3 = true := hall x3 (by simp)
  have h4 : isHexLowerDigit x4 = true := hall x4 (by simp)
  have h5 : isHexLowerDigit x5 = true := hall x5 (by simp)
  have h6 : isHexLowerDigit x6 = true := hall x6 (by simp)
  have h7 : isHexLowerDigit x7 = true := hall x7 (by simp)
  have h8 : isHexLowerDigit x8 = true := hall x8 (by simp)
  have h9 : isHexLowerDigit x9 = true := hall x9 (by simp)
  have h10 : isHexLowerDigit x10 = true := hall x10 (by simp)
  have h11 : isHexLowerDigit x11 = true := hall x11 (by simp)
  have h12 : isHexLowerDigit x12 = true := hall x12 (by simp)
  have hjoin : joinColon (chunk2
      [x1, x2, x3, x4, x5, x6, x7, x8, x9, x10, x11, x12])
      = [x1, x2, ':', x3, x4, ':', x5, x6, ':', x7, x8, ':',
         x9, x10, ':', x11, x12] := rfl
  rw [hjoin]
  refine ⟨?_, ?_, ?_⟩
  · rw [isCanonicalMac]
    simp [h1, h2, h3, h4, h5, h6, h7, h8, h9, h10, h11, h12]
  · rw [hexOf]
    have hdata : (String.mk [x1, x2, ':', x3, x4, ':', x5, x6, ':', x7, x8, ':',
        x9, x10, ':', x11, x12]).data
        = [x1, x2, ':', x3, x4, ':', x5, x6, ':', x7, x8, ':',
           x9, x10, ':', x11, x12] := rfl
    rw [hdata]
    have hcolon : jsToLower ':' = ':' := by decide
    simp only [List.map_cons, List.map_nil,
      jsToLower_fix x1 h1, jsToLower_fix x2 h2, jsToLower_fix x3 h3,
      jsToLower_fix x4 h4, jsToLower_fix x5 h5, jsToLower_fix x6 h6,
      jsToLower_fix x7 h7, jsToLower_fix x8 h8, jsToLower_fix x9 h9,
      jsToLower_fix x10 h10, jsToLower_fix x11 h11, jsToLower_fix x12 h12,
      hcolon]
    have hcf : isHexLowerDigit ':' = false := by decide
    simp [List.filter, h1, h2, h3, h4, h5, h6, h7, h8, h9, h10, h11, h12, hcf]
  · intro h
    have := congrArg String.data h
    simp at this

/-- C10.  The MAC normalizer returns only canonical values: any successful
result is six lower-case two-hex-digit groups joined by colons; it returns
null exactly when the lower-cased, hex-filtered input does not hold exactly
12 hex digits; and it is idempotent on its successful results. -/
theorem normalizeMac_canonical_and_idem :
    (∀ s m, normalizeMac s = some m → isCanonicalMac m = true) ∧
    (∀ s, normalizeMac s = none ↔ ¬((hexOf s).length = 12)) ∧
    (∀ s m, normalizeMac s = some m → normalizeMac m = some m) := by
  have hstruct : ∀ s m, normalizeMac s = some m →
      (hexOf s).length = 12 ∧ m = String.mk (joinColon (chunk2 (hexOf s))) := by
    intro s m h
    simp only [normalizeMac] at h
    split at h
    · simp at h
    · split at h
      · simp only [Option.some.injEq] at h
        exact ⟨by assumption, h.symm⟩
      · simp at h
  refine ⟨?_, ?_, ?_⟩
  · intro s m h
    obtain ⟨h12, rfl⟩ := hstruct s m h
    exact (mac12 (hexOf s) h12 (fun c hc => (List.mem_filter.mp hc).2)).1
  · intro s
    constructor
    · intro h
      simp only [normalizeMac] at h
      split at h
      · rename_i hs
        subst hs
        decide
      · split at h
        · simp at h
        · rename_i hn
          exact hn
    · intro h
      simp only [normalizeMac]
      split
      · rfl
      · rfl
  · intro s m h
    obtain ⟨h12, rfl⟩ := hstruct s m h
    have hm := mac12 (hexOf s) h12 (fun c hc => (List.mem_filter.mp hc).2)
    simp only [normalizeMac, if_neg hm.2.2]
    rw [hm.2.1, if_pos h12]

/-- Witness for C10 at concrete MAC strings. -/
theorem normalizeMac_canonical_and_idem_witness :
    isCanonicalMac "aa:bb:cc:dd:ee:ff" = true ∧
    (normalizeMac "zz" = none ↔ ¬((hexOf "zz").length = 12)) ∧
    normalizeMac "aa:bb:cc:dd:ee:ff" = some "aa:bb:cc:dd:ee:ff" := by
  refine ⟨?_, ?_, ?_⟩
  · exact normalizeMac_canonical_and_idem.1 "AA-BB-CC-DD-EE-FF" "aa:bb:cc:dd:ee:ff"
      (by decide)
  · exact normalizeMac_canonical_and_idem.2.1 "zz"
  · exact normalizeMac_canonical_and_idem.2.2 "AA-BB-CC-DD-EE-FF" "aa:bb:cc:dd:ee:ff"
      (by decide)

end AgroGo
